import Mathlib

set_option maxRecDepth 8000

/-!
Verification development for the rendering core of a CUDA Monte-Carlo path
tracer.  The embedding models the device kernels of the pipeline
(`generateRayFromCamera`, `computeIntersections`, `kernel_sample_f`,
`finalGather`, `sendImageToPBO`, the `pathtrace` bounce loop, and the optional
stream-compaction step) as pure Lean functions over exact rational arithmetic.
Float arithmetic is idealised as arithmetic on `ℚ`; 32-bit machine integers are
modelled as `ℕ` reduced modulo `2^32`.  Transcendental leaf functions
(`glm::normalize`, the trigonometric part of `squareToDiskConcentric`,
`glm::pow`, the `uniform_real_distribution` output map) are taken as explicit
function parameters of the kernels that call them, since no claim depends on
their numeric values.
-/

/-! Basic vector algebra: `glm::vec3` over exact rationals, componentwise. -/

structure Vec3 where
  x : ℚ
  y : ℚ
  z : ℚ
deriving DecidableEq

def Vec3.add (a b : Vec3) : Vec3 := ⟨a.x + b.x, a.y + b.y, a.z + b.z⟩

def Vec3.sub (a b : Vec3) : Vec3 := ⟨a.x - b.x, a.y - b.y, a.z - b.z⟩

/-- Componentwise product, `glm` vector * vector. -/
def Vec3.mul (a b : Vec3) : Vec3 := ⟨a.x * b.x, a.y * b.y, a.z * b.z⟩

/-- Scalar * vector, `glm` float * vec3. -/
def Vec3.smul (s : ℚ) (a : Vec3) : Vec3 := ⟨s * a.x, s * a.y, s * a.z⟩

def Vec3.zero : Vec3 := ⟨0, 0, 0⟩

def Vec3.one : Vec3 := ⟨1, 1, 1⟩

instance : Add Vec3 := ⟨Vec3.add⟩

instance : Sub Vec3 := ⟨Vec3.sub⟩

instance : Inhabited Vec3 := ⟨Vec3.zero⟩

/-- `glm::dot` on 3-vectors. -/
def dotV (a b : Vec3) : ℚ := a.x * b.x + a.y * b.y + a.z * b.z

/-! Scene data model.  `sceneStructs.h` is not under src/, so the record
layouts are modelled from the spec's data-model section and from the fields the
kernels in src/ actually read. -/

inductive GeomType where
  | CUBE
  | SPHERE
  | GLTF_MESH
deriving DecidableEq

/-- Modelled from the spec: the `Geom` instance record of `sceneStructs.h`
(missing from src/): primitive kind, material id, object-to-world transform
data.  The scene-dispatch loop in src/ reads only `type` and `materialid`; the
transform fields are consumed inside the primitive intersectors, which this
development abstracts. -/
structure Geom where
  type : GeomType
  materialid : ℕ
  translation : Vec3
  rotation : Vec3
  scale : Vec3
deriving DecidableEq

instance : Inhabited Geom := ⟨⟨GeomType.CUBE, 0, Vec3.zero, Vec3.zero, Vec3.zero⟩⟩

/-- Modelled from the spec: the `Material` record of `sceneStructs.h` (missing
from src/): base color, specular color and exponent, reflective / refractive
flags, index of refraction, emittance.  The shading kernel in src/ reads
`color` and `emittance`. -/
structure Material where
  color : Vec3
  specularColor : Vec3
  specularExponent : ℚ
  hasReflective : Bool
  hasRefractive : Bool
  indexOfRefraction : ℚ
  emittance : ℚ
deriving DecidableEq

instance : Inhabited Material := ⟨⟨Vec3.zero, Vec3.zero, 0, false, false, 0, 0⟩⟩

structure Ray where
  origin : Vec3
  direction : Vec3
deriving DecidableEq

/-- The per-path state (`PathSegment` of `sceneStructs.h`, fields as read and
written by the kernels in src/): current ray, final color, accumulated
throughput, owning pixel, remaining bounce budget (a C `int`, hence `ℤ`). -/
structure PathSegment where
  ray : Ray
  color : Vec3
  accum_throughput : Vec3
  pixelIndex : ℕ
  remainingBounces : ℤ
deriving DecidableEq

/-- Per-bounce intersection record: parametric distance `t` (negative means
miss), world-space surface normal, material id of the hit geometry. -/
structure Intersection where
  t : ℚ
  surfaceNormal : Vec3
  materialId : ℕ
deriving DecidableEq

instance : Inhabited Intersection := ⟨⟨0, Vec3.zero, 0⟩⟩

/-- Camera record, fields as read by `generateRayFromCamera`:
resolution (width, height), position, orthonormal frame (view, up, right),
pixel angular extent, aperture radius (0 means pinhole), focal length. -/
structure Camera where
  resolution : ℕ × ℕ
  position : Vec3
  view : Vec3
  up : Vec3
  right : Vec3
  pixelLength : ℚ × ℚ
  apertureSize : ℚ
  focalLength : ℚ
deriving DecidableEq

/-! Deterministic RNG.  `thrust::default_random_engine` is
`thrust::minstd_rand`, the linear congruential engine with multiplier 48271,
increment 0 and modulus 2^31 - 1 (modelled from the thrust documentation, an
external library).  Its state is a number in [1, 2^31 - 2]; seeding reduces the
32-bit seed modulo the modulus and replaces 0 by 1. -/

/-- Reduce to a 32-bit machine word, the wrap-around of C `int`/`unsigned int`
arithmetic. -/
def word32 (n : ℕ) : ℕ := n % 4294967296

/-- Modelled from the spec: `utilhash`, the fixed non-cryptographic 32-bit
integer hash used by `makeSeededRandomEngine`.  Its definition lives in the
repository outside src/ (only its uses appear in src/); the spec requires only
a fixed integer hash, and this is the classic six-step shift/add/xor hash the
call sites rely on. -/
def utilhash (a : ℕ) : ℕ :=
  let a1 := word32 (a + 0x7ed55d16 + word32 (a <<< 12))
  let a2 := word32 ((a1 ^^^ 0xc761c23c) ^^^ (a1 >>> 19))
  let a3 := word32 (a2 + 0x165667b1 + word32 (a2 <<< 5))
  let a4 := word32 ((a3 + 0xd3a2646c) ^^^ word32 (a3 <<< 9))
  let a5 := word32 (a4 + 0xfd7046c5 + word32 (a4 <<< 3))
  word32 ((a5 ^^^ 0xb55a4f09) ^^^ (a5 >>> 16))

def lcgModulus : ℕ := 2147483647

def lcgMultiplier : ℕ := 48271

/-- Engine construction from a 32-bit seed (state of the LCG after seeding). -/
def engineOfSeed (seed : ℕ) : ℕ :=
  if seed % lcgModulus = 0 then 1 else seed % lcgModulus

/-- One LCG step of the engine. -/
def engineNext (s : ℕ) : ℕ := (lcgMultiplier * s) % lcgModulus

/-- The engine state after drawing `n` raw samples. -/
def engineStream (s : ℕ) (n : ℕ) : ℕ := Nat.iterate engineNext n s

/-- The seed computed by `makeSeededRandomEngine` in src/:
`utilhash((1 << 31) | (depth << 22) | iter) ^ utilhash(index)`. -/
def makeSeededRandomEngineSeed (iter index depth : ℕ) : ℕ :=
  utilhash (word32 ((1 <<< 31) ||| word32 (depth <<< 22) ||| iter)) ^^^
    utilhash (word32 index)

/-- `makeSeededRandomEngine(iter, index, depth)` from src/: hash-combine the
arguments and construct the engine from the resulting 32-bit value. -/
def makeSeededRandomEngine (iter index depth : ℕ) : ℕ :=
  engineOfSeed (makeSeededRandomEngineSeed iter index depth)

/-- The seed formula in the words of the spec:
`hash((depth << 22) | (1 << 31) | iteration)` XOR `hash(pixelIndex)`. -/
def specSeedFormula (iteration pixelIndex depth : ℕ) : ℕ :=
  utilhash (word32 (word32 (depth <<< 22) ||| (1 <<< 31) ||| iteration)) ^^^
    utilhash (word32 pixelIndex)

/-! The shading kernel `kernel_sample_f`.  The per-thread body takes the slot
index `idx` the kernel computed from the thread id, the intersection and path
records found in slot `idx`, and the material table.  `getPointOnRay` (from
intersections.h) and `sample_f` (from interactions.h) live outside src/ and
are therefore passed as explicit function parameters; `sample_f` additionally
receives the engine state the kernel constructed. -/

def kernel_sample_f
    (getPointOnRay : Ray → ℚ → Vec3)
    (sample_f : PathSegment → Vec3 → Vec3 → Material → ℕ → PathSegment)
    (iter depth : ℕ) (mats : List Material)
    (idx : ℕ) (isect : Intersection) (path : PathSegment) : PathSegment :=
  if path.remainingBounces = 0 then
    path
  else if 0 < isect.t then
    let mat := mats.getD isect.materialId default
    let rng := makeSeededRandomEngine iter idx depth
    if 0 < mat.emittance then
      { path with
          color := (Vec3.smul mat.emittance mat.color).mul path.accum_throughput,
          remainingBounces := 0 }
    else
      sample_f path (getPointOnRay path.ray isect.t) isect.surfaceNormal mat rng
  else
    { path with color := Vec3.zero, remainingBounces := 0 }

/-! Camera ray generation.  `glm::normalize` and `squareToDiskConcentric`
(whose value is built from `cos`/`sin`) are transcendental on rationals and are
taken as function parameters, as is the `uniform_real_distribution` sampler
`u01 : engine state → (draw, next engine state)`.  The compile-time flag
`CACHE_FIRST_INTERSECTION` is 0 in src/, so the anti-aliasing jitter draws are
active. -/

/-- `cameraToWorld` from src/: `p ↦ cam.position + mat3(right, up, view) * p`
(the matrix has the frame vectors as columns). -/
def cameraToWorld (p : Vec3) (cam : Camera) : Vec3 :=
  cam.position +
    (Vec3.smul p.x cam.right + Vec3.smul p.y cam.up + Vec3.smul p.z cam.view)

/-- The per-pixel body of `generateRayFromCamera` for an in-range pixel
`(x, y)`, producing the `PathSegment` stored at slot `x + y * width`. -/
def generateRayFromCamera
    (normalize : Vec3 → Vec3)
    (squareToDiskConcentric : ℚ × ℚ → Vec3)
    (u01 : ℕ → ℚ × ℕ)
    (cam : Camera) (iter traceDepth : ℕ) (x y : ℕ) : PathSegment :=
  let index := x + y * cam.resolution.1
  let rng0 := makeSeededRandomEngine iter index traceDepth
  let xOffset := (u01 rng0).1
  let rng1 := (u01 rng0).2
  let yOffset := (u01 rng1).1
  let rng2 := (u01 rng1).2
  let dir := normalize
    (cam.view
      - Vec3.smul (cam.pixelLength.1 * ((x : ℚ) + xOffset - (cam.resolution.1 : ℚ) * (1/2))) cam.right
      - Vec3.smul (cam.pixelLength.2 * ((y : ℚ) + yOffset - (cam.resolution.2 : ℚ) * (1/2))) cam.up)
  let originDir :=
    if 0 < cam.apertureSize then
      let focalT := cam.focalLength * dotV cam.view cam.view / dotV dir cam.view
      let focalPt := cam.position + Vec3.smul focalT dir
      let u1 := (u01 rng2).1
      let rng3 := (u01 rng2).2
      let u2 := (u01 rng3).1
      let ptOnLens :=
        cameraToWorld (Vec3.smul cam.apertureSize (squareToDiskConcentric (u1, u2))) cam
      (ptOnLens, normalize (focalPt - ptOnLens))
    else
      (cam.position, dir)
  { ray := ⟨originDir.1, originDir.2⟩
    color := Vec3.zero
    accum_throughput := Vec3.one
    pixelIndex := index
    remainingBounces := (traceDepth : ℤ) }

/-! Scene-dispatch intersection (`computeIntersections`).  The primitive
routines `boxIntersectionTest`, `sphereIntersectionTest` and
`geomIntersectionTest` live in intersections.h outside src/ and are passed as
function parameters returning a parametric `t` together with the candidate hit
point and surface normal. -/

/-- Result of one primitive intersection routine: `t` along the world ray
(nonpositive means miss), hit point, world-space normal. -/
structure PrimHit where
  t : ℚ
  point : Vec3
  normal : Vec3
deriving DecidableEq

/-- `FLT_MAX`, the initial value of `t_min`, as an exact rational:
`(2 - 2^-23) * 2^127 = 2^128 - 2^104`, written as a literal. -/
def fltMax : ℚ := 340282346638528859811704183484516925440

/-- The type dispatch inside the geometry loop of `computeIntersections`. -/
def dispatchGeom
    (boxIntersectionTest sphereIntersectionTest geomIntersectionTest : Geom → Ray → PrimHit)
    (g : Geom) (r : Ray) : PrimHit :=
  match g.type with
  | GeomType.CUBE => boxIntersectionTest g r
  | GeomType.SPHERE => sphereIntersectionTest g r
  | GeomType.GLTF_MESH => geomIntersectionTest g r

/-- Loop state of `computeIntersections`: current `t_min` (starting at
`FLT_MAX`), current `hit_geom_index` (starting at -1), current best normal. -/
structure IsectAcc where
  t_min : ℚ
  hit_geom_index : ℤ
  normal : Vec3
deriving DecidableEq

/-- One iteration of the geometry loop: on `t > 0 && t_min > t`, record the new
nearest hit, else keep the accumulator. -/
def isectStep (res : ℕ → PrimHit) (acc : IsectAcc) (i : ℕ) : IsectAcc :=
  if 0 < (res i).t ∧ (res i).t < acc.t_min then
    { t_min := (res i).t, hit_geom_index := (i : ℤ), normal := (res i).normal }
  else
    acc

/-- The primitive-test result for the `i`-th geometry of the scene. -/
def geomRes
    (boxIntersectionTest sphereIntersectionTest geomIntersectionTest : Geom → Ray → PrimHit)
    (geoms : List Geom) (ray : Ray) (i : ℕ) : PrimHit :=
  dispatchGeom boxIntersectionTest sphereIntersectionTest geomIntersectionTest
    (geoms.getD i default) ray

/-- The per-path body of `computeIntersections`: scan all geoms, keep the
nearest positive hit, then write `(t, materialId, surfaceNormal)` on a hit and
`t = -1` on a total miss (the slot was zero-initialised by the preceding
`cudaMemset`, so normal and material id stay 0 on a miss). -/
def computeIntersections
    (boxIntersectionTest sphereIntersectionTest geomIntersectionTest : Geom → Ray → PrimHit)
    (geoms : List Geom) (ray : Ray) : Intersection :=
  let res := geomRes boxIntersectionTest sphereIntersectionTest geomIntersectionTest geoms ray
  let acc := (List.range geoms.length).foldl (isectStep res) ⟨fltMax, -1, Vec3.zero⟩
  if acc.hit_geom_index = -1 then
    { t := -1, surfaceNormal := Vec3.zero, materialId := 0 }
  else
    { t := acc.t_min
      surfaceNormal := acc.normal
      materialId := (geoms.getD acc.hit_geom_index.toNat default).materialid }

/-! Stream compaction (`STREAM_COMPACT` branch of `pathtrace`). -/

/-- The `notEquals` functor from src/, applied as `notEquals(0)`: a path is
kept in the live partition iff `remainingBounces != a`. -/
def notEquals (a : ℤ) (x : PathSegment) : Bool := x.remainingBounces ≠ a

/-- Stable partition of a list by a predicate (the documented semantics of
`thrust::stable_partition`, an external library): elements satisfying the
predicate first, then the rest, relative order preserved in both groups. -/
def thrustStablePartition (p : α → Bool) : List α → List α × List α
  | [] => ([], [])
  | a :: l =>
    let rest := thrustStablePartition p l
    if p a then (a :: rest.1, rest.2) else (rest.1, a :: rest.2)

/-- The compaction step of `pathtrace`: stably partition the pool by
`notEquals(0)` and set `num_paths` to the live count. -/
def streamCompact (paths : List PathSegment) : List PathSegment × ℕ :=
  let parts := thrustStablePartition (notEquals 0) paths
  (parts.1 ++ parts.2, parts.1.length)

/-! Progressive accumulation (`finalGather`). -/

/-- `glm::mix(x, y, a) = x * (1 - a) + y * a`. -/
def glm_mix (x y a : ℚ) : ℚ := x * (1 - a) + y * a

/-- Componentwise `glm::mix` on vectors. -/
def glm_mixV (x y : Vec3) (a : ℚ) : Vec3 :=
  ⟨glm_mix x.x y.x a, glm_mix x.y y.y a, glm_mix x.z y.z a⟩

/-- The per-pixel update of `finalGather` at iteration `nIters`:
`image[p] ← mix(image[p], color, 1 / nIters)`. -/
def finalGatherPixel (nIters : ℕ) (image color : Vec3) : Vec3 :=
  glm_mixV image color (1 / (nIters : ℚ))

/-- The image value of one pixel after running `finalGather` for the estimates
`cs`, the first of which belongs to iteration `i`. -/
def accumImageFrom (m : Vec3) (i : ℕ) : List Vec3 → Vec3
  | [] => m
  | c :: cs => accumImageFrom (finalGatherPixel i m c) (i + 1) cs

/-- Scalar (single channel) version of `accumImageFrom`. -/
def accumChanFrom (m : ℚ) (i : ℕ) : List ℚ → ℚ
  | [] => m
  | c :: cs => accumChanFrom (glm_mix m c (1 / (i : ℚ))) (i + 1) cs

/-- Vector sum of a list of colors. -/
def sumV (cs : List Vec3) : Vec3 := cs.foldr Vec3.add Vec3.zero

/-! Display conversion (`sendImageToPBO`).  `glm::pow(·, 1/GAMMA)` is a real
power and is passed as the function parameter `gammaPow`; the Reinhard
operator, the 255 scaling, the C truncating `(int)` cast and the clamp are
modelled exactly. -/

/-- The C `(int)` cast on a rational: truncation toward zero. -/
def intCast (q : ℚ) : ℤ := if 0 ≤ q then ⌊q⌋ else ⌈q⌉

/-- `glm::clamp(v, lo, hi) = min(max(v, lo), hi)`. -/
def glm_clamp (v lo hi : ℤ) : ℤ := min (max v lo) hi

/-- `x / (x + 1)`, the Reinhard operator on one channel. -/
def reinhard (x : ℚ) : ℚ := x / (x + 1)

/-- Output pixel record (`uchar4` written to the PBO). -/
structure Uchar4 where
  x : ℤ
  y : ℤ
  z : ℤ
  w : ℤ
deriving DecidableEq

instance : Inhabited Uchar4 := ⟨⟨0, 0, 0, 0⟩⟩

/-- The per-pixel body of `sendImageToPBO`: optional Reinhard + gamma, then
scale by 255, truncate, clamp to [0, 255], and write the texel (with `w = 0`). -/
def sendImageToPBOPixel (hdrGamma : Bool) (gammaPow : ℚ → ℚ) (pix0 : Vec3) : Uchar4 :=
  let pix :=
    if hdrGamma then
      Vec3.mk (gammaPow (reinhard pix0.x)) (gammaPow (reinhard pix0.y)) (gammaPow (reinhard pix0.z))
    else
      pix0
  { x := glm_clamp (intCast (pix.x * 255)) 0 255
    y := glm_clamp (intCast (pix.y * 255)) 0 255
    z := glm_clamp (intCast (pix.z * 255)) 0 255
    w := 0 }

/-- `sendImageToPBO`: reads the stored linear image and writes only the
external pixel buffer; the pair returned is (image after the pass, produced
pixel buffer), the first component recording that the kernel never writes
`image`. -/
def sendImageToPBO (hdrGamma : Bool) (gammaPow : ℚ → ℚ) (image : List Vec3) :
    List Vec3 × List Uchar4 :=
  (image, image.map (sendImageToPBOPixel hdrGamma gammaPow))

/-! The bounce loop of `pathtrace`.  With the src/ configuration
(`STREAM_COMPACT 0`) `num_paths` stays at `pixelcount` for the whole loop; the
loop body increments `depth` and then launches `kernel_sample_f` with the
incremented value, and the loop exits once
`depth >= traceDepth || num_paths == 0`. -/

/-- The list of `depth` arguments passed to `kernel_sample_f` by the bounce
loop, starting from current depth counter `depth`.  The body always runs once
(the completion flag is tested at the end of the body). -/
def pathtraceShadeDepthsFrom (traceDepth pixelcount depth : ℕ) : List ℕ :=
  let d := depth + 1
  if h : traceDepth ≤ d ∨ pixelcount = 0 then
    [d]
  else
    d :: pathtraceShadeDepthsFrom traceDepth pixelcount d
termination_by traceDepth - depth
decreasing_by
  simp only [not_or, not_le] at h
  omega

/-- The full schedule of shading depths of one `pathtrace` call (the loop
starts at `depth = 0`). -/
def pathtraceShadeDepths (traceDepth pixelcount : ℕ) : List ℕ :=
  pathtraceShadeDepthsFrom traceDepth pixelcount 0

/-- Loop invariant of the geometry scan: either nothing positive has been seen
(accumulator untouched), or the accumulator holds the nearest positive hit of
the processed prefix, ties resolved to the lowest geometry index. -/
def isectInv (res : ℕ → PrimHit) (n : ℕ) (acc : IsectAcc) : Prop :=
  (acc.hit_geom_index = -1 ∧ acc.t_min = fltMax ∧ ∀ j, j < n → ¬ 0 < (res j).t) ∨
  (∃ i, i < n ∧ acc.hit_geom_index = (i : ℤ) ∧ acc.t_min = (res i).t ∧
    acc.normal = (res i).normal ∧ 0 < (res i).t ∧
    (∀ j, j < n → 0 < (res j).t → (res i).t ≤ (res j).t) ∧
    (∀ j, j < i → 0 < (res j).t → (res i).t < (res j).t))

/-! Concrete instantiations used by the witnesses below. -/

def wNormalize : Vec3 → Vec3 := fun v => v

def wSqDisk : ℚ × ℚ → Vec3 := fun _ => Vec3.zero

def wU01 : ℕ → ℚ × ℕ := fun s => ((1 / 4 : ℚ), engineNext s)

def wGetPointOnRay : Ray → ℚ → Vec3 := fun r t => r.origin + Vec3.smul t r.direction

/-- A `sample_f` instantiation that records the engine state it was handed in
the path's `pixelIndex` field, making the sample stream observable. -/
def probeSample_f : PathSegment → Vec3 → Vec3 → Material → ℕ → PathSegment :=
  fun path _ _ _ rng => { path with pixelIndex := rng }

def wCamPinhole : Camera :=
  { resolution := (4, 4)
    position := ⟨0, 5, 19/2⟩
    view := ⟨0, 0, -1⟩
    up := ⟨0, 1, 0⟩
    right := ⟨1, 0, 0⟩
    pixelLength := (1/100, 1/100)
    apertureSize := 0
    focalLength := 4 }

def wPathLive : PathSegment :=
  { ray := ⟨Vec3.zero, ⟨0, 0, 1⟩⟩
    color := Vec3.zero
    accum_throughput := Vec3.one
    pixelIndex := 0
    remainingBounces := 5 }

def wPathDone : PathSegment := { wPathLive with remainingBounces := 0 }

def wIsectHit : Intersection := ⟨1, ⟨0, 1, 0⟩, 0⟩

def wEmissiveMat : Material :=
  { color := Vec3.one
    specularColor := Vec3.zero
    specularExponent := 0
    hasReflective := false
    hasRefractive := false
    indexOfRefraction := 0
    emittance := 3 }

def wDiffuseMat : Material := { wEmissiveMat with color := ⟨49/50, 49/50, 49/50⟩, emittance := 0 }

def wRay : Ray := ⟨Vec3.zero, ⟨0, 0, 1⟩⟩

def wBoxTest : Geom → Ray → PrimHit := fun _ _ => ⟨2, Vec3.zero, ⟨0, 1, 0⟩⟩

def wSphereTest : Geom → Ray → PrimHit := fun _ _ => ⟨1, Vec3.zero, ⟨1, 0, 0⟩⟩

def wMeshTest : Geom → Ray → PrimHit := fun _ _ => ⟨-1, Vec3.zero, Vec3.zero⟩

def wGeomsMiss : List Geom := [⟨GeomType.GLTF_MESH, 7, Vec3.zero, Vec3.zero, Vec3.one⟩]

def wSegs : List PathSegment :=
  [{ wPathLive with remainingBounces := 2 },
   wPathDone,
   { wPathLive with remainingBounces := 1, pixelIndex := 2 }]

def wColors : List Vec3 := [⟨1, 2, 3⟩, ⟨3, 4, 5⟩]

def wImage : List Vec3 := [⟨1, 1, 1⟩]

/-! Theorems. -/

/-- Claim C7: the RNG seed computed by `makeSeededRandomEngine` equals
`hash((depth << 22) | (1 << 31) | iteration) XOR hash(pixelIndex)` for the
fixed integer hash, that 32-bit value is what is fed to the standard LCG
engine, and identical `(iteration, pixelIndex, depth)` tuples yield identical
engines and hence identical sample sequences. -/
theorem makeSeededRandomEngine_seed_spec (iter pix depth : ℕ) :
    makeSeededRandomEngineSeed iter pix depth = specSeedFormula iter pix depth ∧
    makeSeededRandomEngine iter pix depth = engineOfSeed (specSeedFormula iter pix depth) ∧
    ∀ n, engineStream (makeSeededRandomEngine iter pix depth) n =
      engineStream (engineOfSeed (specSeedFormula iter pix depth)) n := by
  have h : makeSeededRandomEngineSeed iter pix depth = specSeedFormula iter pix depth := by
    unfold makeSeededRandomEngineSeed specSeedFormula
    rw [Nat.lor_comm (1 <<< 31) (word32 (depth <<< 22))]
  refine ⟨h, ?_, ?_⟩
  · unfold makeSeededRandomEngine
    rw [h]
  · intro n
    unfold makeSeededRandomEngine
    rw [h]

/-- Claim C8: a path segment whose `remainingBounces` is 0 is returned
unchanged by the shading kernel, whatever the intersection, the materials and
the BSDF sampler are: its ray, throughput, color, pixel index and bounce
counter all keep their values. -/
theorem kernel_sample_f_terminated_immutable
    (gp : Ray → ℚ → Vec3) (sf : PathSegment → Vec3 → Vec3 → Material → ℕ → PathSegment)
    (iter depth : ℕ) (mats : List Material) (idx : ℕ)
    (isect : Intersection) (path : PathSegment)
    (h : path.remainingBounces = 0) :
    kernel_sample_f gp sf iter depth mats idx isect path = path := by
  unfold kernel_sample_f
  rw [if_pos h]

/-- Witness for C8 at a concrete terminated segment. -/
theorem kernel_sample_f_terminated_immutable_witness :
    wPathDone.remainingBounces = 0 ∧
    kernel_sample_f wGetPointOnRay probeSample_f 1 1 [wEmissiveMat] 0 wIsectHit wPathDone =
      wPathDone :=
  ⟨rfl, kernel_sample_f_terminated_immutable _ _ 1 1 _ 0 _ _ rfl⟩

/-- Claim C4: when a live path's intersection hits a material with positive
emittance, shading is terminal: the color becomes
`materialColor * emittance * throughput`, `remainingBounces` becomes 0, and no
other field of the path changes. -/
theorem kernel_sample_f_emissive_terminal
    (gp : Ray → ℚ → Vec3) (sf : PathSegment → Vec3 → Vec3 → Material → ℕ → PathSegment)
    (iter depth : ℕ) (mats : List Material) (idx : ℕ)
    (isect : Intersection) (path : PathSegment)
    (h0 : path.remainingBounces ≠ 0) (h1 : 0 < isect.t)
    (h2 : 0 < (mats.getD isect.materialId default).emittance) :
    kernel_sample_f gp sf iter depth mats idx isect path =
      { path with
          color := (Vec3.smul (mats.getD isect.materialId default).emittance
                      (mats.getD isect.materialId default).color).mul path.accum_throughput,
          remainingBounces := 0 } := by
  simp only [kernel_sample_f, if_neg h0, if_pos h1, if_pos h2]

/-- Witness for C4 at a concrete emissive hit. -/
theorem kernel_sample_f_emissive_terminal_witness :
    wPathLive.remainingBounces ≠ 0 ∧ 0 < wIsectHit.t ∧
    0 < (([wEmissiveMat]).getD wIsectHit.materialId default).emittance ∧
    kernel_sample_f wGetPointOnRay probeSample_f 1 1 [wEmissiveMat] 0 wIsectHit wPathLive =
      { wPathLive with
          color := (Vec3.smul (([wEmissiveMat]).getD wIsectHit.materialId default).emittance
                      (([wEmissiveMat]).getD wIsectHit.materialId default).color).mul
                     wPathLive.accum_throughput,
          remainingBounces := 0 } :=
  ⟨by decide, by decide, by decide,
    kernel_sample_f_emissive_terminal _ _ 1 1 _ 0 _ _ (by decide) (by decide) (by decide)⟩

/-- Claim C1, counterexample: the shading kernel keys its engine off the slot
index, not the path's `pixelIndex`.  Two invocations agreeing on
`(iteration, pixelIndex, depth)` (here (1, 0, 1)) but placed at slots 0 and 1
hand different engine states to the BSDF sampler and so draw different sample
sequences, refuting the claim for permuted pools. -/
theorem kernel_sample_f_depends_on_slot :
    kernel_sample_f wGetPointOnRay probeSample_f 1 1 [wDiffuseMat] 0 wIsectHit wPathLive ≠
      kernel_sample_f wGetPointOnRay probeSample_f 1 1 [wDiffuseMat] 1 wIsectHit wPathLive := by
  decide

/-- Claim C1, amended: the sample stream of a shading invocation is keyed by
`(iteration, slot index, depth)`; whenever a path sits at the slot equal to its
`pixelIndex` — as is the case for the whole run in the shipped configuration,
where sorting and compaction are disabled and the pool is never permuted — the
invocation is fully determined by `(iteration, pixelIndex, depth)` and the
path's own data. -/
theorem kernel_sample_f_tuple_keyed_when_unpermuted
    (gp : Ray → ℚ → Vec3) (sf : PathSegment → Vec3 → Vec3 → Material → ℕ → PathSegment)
    (iter depth : ℕ) (mats : List Material) (idx idx' : ℕ)
    (isect : Intersection) (path : PathSegment)
    (h : idx = path.pixelIndex) (h' : idx' = path.pixelIndex) :
    kernel_sample_f gp sf iter depth mats idx isect path =
      kernel_sample_f gp sf iter depth mats idx' isect path := by
  subst h
  subst h'
  rfl

/-- Witness for the amended C1 at a concrete unpermuted slot. -/
theorem kernel_sample_f_tuple_keyed_witness :
    (0 = wPathLive.pixelIndex) ∧
    kernel_sample_f wGetPointOnRay probeSample_f 2 3 [wDiffuseMat] 0 wIsectHit wPathLive =
      kernel_sample_f wGetPointOnRay probeSample_f 2 3 [wDiffuseMat] 0 wIsectHit wPathLive :=
  ⟨rfl, kernel_sample_f_tuple_keyed_when_unpermuted _ _ 2 3 _ 0 0 _ _ rfl rfl⟩

/-- Two 3-vectors with equal components are equal. -/
theorem vec3_ext (a b : Vec3) (hx : a.x = b.x) (hy : a.y = b.y) (hz : a.z = b.z) :
    a = b := by
  cases a
  cases b
  cases hx
  cases hy
  cases hz
  rfl

/-- Generalised running-mean invariant of the `finalGather` update on one
channel: folding estimates from iteration `i ≥ 2` onwards into a running value
`m` produces the overall weighted mean. -/
theorem accumChanFrom_mean :
    ∀ (cs : List ℚ) (i : ℕ) (m : ℚ), 2 ≤ i →
      accumChanFrom m i cs =
        (((i : ℚ) - 1) * m + cs.sum) / (((i : ℚ) - 1) + (cs.length : ℚ)) := by
  intro cs
  induction cs with
  | nil =>
    intro i m hi
    have hi' : (2 : ℚ) ≤ (i : ℚ) := by exact_mod_cast hi
    have hne : ((i : ℚ) - 1) ≠ 0 := by
      intro hc
      linarith
    simp only [accumChanFrom, List.sum_nil, List.length_nil, Nat.cast_zero, add_zero]
    exact (mul_div_cancel_left₀ m hne).symm
  | cons c cs ih =>
    intro i m hi
    have hi' : (2 : ℚ) ≤ (i : ℚ) := by exact_mod_cast hi
    have hL : (0 : ℚ) ≤ (cs.length : ℚ) := by positivity
    have hine : (i : ℚ) ≠ 0 := by linarith
    have hd1 : (i : ℚ) + (cs.length : ℚ) ≠ 0 := by
      have : (0 : ℚ) < (i : ℚ) + (cs.length : ℚ) := by linarith
      exact this.ne'
    have hd2 : ((i : ℚ) - 1) + ((cs.length : ℚ) + 1) ≠ 0 := by
      have : (0 : ℚ) < ((i : ℚ) - 1) + ((cs.length : ℚ) + 1) := by linarith
      exact this.ne'
    simp only [accumChanFrom]
    rw [ih (i + 1) _ (by omega)]
    push_cast
    simp only [add_sub_cancel_right, glm_mix]
    field_simp
    ring

/-- One channel of the running image, started from 0 at iteration 1, is the
arithmetic mean of the per-iteration estimates. -/
theorem accumChanFrom_zero_one_mean (l : List ℚ) (h : l ≠ []) :
    accumChanFrom 0 1 l = l.sum / (l.length : ℚ) := by
  obtain ⟨c, cs, rfl⟩ := List.exists_cons_of_ne_nil h
  simp only [accumChanFrom]
  have hone : glm_mix 0 c (1 / ((1 : ℕ) : ℚ)) = c := by
    simp [glm_mix]
  rw [hone, accumChanFrom_mean cs 2 c (by omega)]
  push_cast
  norm_num
  ring_nf

/-- The x channel of the vector accumulator is the scalar accumulator of the
x channels. -/
theorem accumImageFrom_x :
    ∀ (cs : List Vec3) (i : ℕ) (m : Vec3),
      (accumImageFrom m i cs).x = accumChanFrom m.x i (cs.map Vec3.x) := by
  intro cs
  induction cs with
  | nil => intro i m; rfl
  | cons c cs ih =>
    intro i m
    simp only [accumImageFrom, List.map_cons, accumChanFrom]
    rw [ih]
    rfl

/-- The y channel of the vector accumulator is the scalar accumulator of the
y channels. -/
theorem accumImageFrom_y :
    ∀ (cs : List Vec3) (i : ℕ) (m : Vec3),
      (accumImageFrom m i cs).y = accumChanFrom m.y i (cs.map Vec3.y) := by
  intro cs
  induction cs with
  | nil => intro i m; rfl
  | cons c cs ih =>
    intro i m
    simp only [accumImageFrom, List.map_cons, accumChanFrom]
    rw [ih]
    rfl

/-- The z channel of the vector accumulator is the scalar accumulator of the
z channels. -/
theorem accumImageFrom_z :
    ∀ (cs : List Vec3) (i : ℕ) (m : Vec3),
      (accumImageFrom m i cs).z = accumChanFrom m.z i (cs.map Vec3.z) := by
  intro cs
  induction cs with
  | nil => intro i m; rfl
  | cons c cs ih =>
    intro i m
    simp only [accumImageFrom, List.map_cons, accumChanFrom]
    rw [ih]
    rfl

/-- x channel of a vector sum. -/
theorem sumV_x (cs : List Vec3) : (sumV cs).x = (cs.map Vec3.x).sum := by
  induction cs with
  | nil => rfl
  | cons c cs ih =>
    simp only [sumV, List.foldr_cons, List.map_cons, List.sum_cons] at ih ⊢
    rw [← ih]
    rfl

/-- y channel of a vector sum. -/
theorem sumV_y (cs : List Vec3) : (sumV cs).y = (cs.map Vec3.y).sum := by
  induction cs with
  | nil => rfl
  | cons c cs ih =>
    simp only [sumV, List.foldr_cons, List.map_cons, List.sum_cons] at ih ⊢
    rw [← ih]
    rfl

/-- z channel of a vector sum. -/
theorem sumV_z (cs : List Vec3) : (sumV cs).z = (cs.map Vec3.z).sum := by
  induction cs with
  | nil => rfl
  | cons c cs ih =>
    simp only [sumV, List.foldr_cons, List.map_cons, List.sum_cons] at ih ⊢
    rw [← ih]
    rfl

/-- Claim C2: starting from a zeroed image, performing the `finalGather`
update `image[p] ← mix(image[p], color_i, 1/i)` at every iteration
`i = 1, …, N` leaves `image[p]` equal to the arithmetic mean of the `N`
per-iteration color estimates of pixel `p`. -/
theorem finalGather_running_mean (cs : List Vec3) (h : cs ≠ []) :
    accumImageFrom Vec3.zero 1 cs = Vec3.smul (1 / (cs.length : ℚ)) (sumV cs) := by
  have hmap : ∀ f : Vec3 → ℚ, cs.map f ≠ [] := by
    intro f hf
    exact h (List.map_eq_nil_iff.mp hf)
  apply vec3_ext
  · rw [accumImageFrom_x]
    show accumChanFrom 0 1 (cs.map Vec3.x) = (Vec3.smul (1 / (cs.length : ℚ)) (sumV cs)).x
    rw [accumChanFrom_zero_one_mean _ (hmap Vec3.x), List.length_map]
    show (cs.map Vec3.x).sum / (cs.length : ℚ) = 1 / (cs.length : ℚ) * (sumV cs).x
    rw [sumV_x, one_div, inv_mul_eq_div]
  · rw [accumImageFrom_y]
    show accumChanFrom 0 1 (cs.map Vec3.y) = (Vec3.smul (1 / (cs.length : ℚ)) (sumV cs)).y
    rw [accumChanFrom_zero_one_mean _ (hmap Vec3.y), List.length_map]
    show (cs.map Vec3.y).sum / (cs.length : ℚ) = 1 / (cs.length : ℚ) * (sumV cs).y
    rw [sumV_y, one_div, inv_mul_eq_div]
  · rw [accumImageFrom_z]
    show accumChanFrom 0 1 (cs.map Vec3.z) = (Vec3.smul (1 / (cs.length : ℚ)) (sumV cs)).z
    rw [accumChanFrom_zero_one_mean _ (hmap Vec3.z), List.length_map]
    show (cs.map Vec3.z).sum / (cs.length : ℚ) = 1 / (cs.length : ℚ) * (sumV cs).z
    rw [sumV_z, one_div, inv_mul_eq_div]

/-- Witness for C2 with two concrete iterations. -/
theorem finalGather_running_mean_witness :
    wColors ≠ [] ∧
    accumImageFrom Vec3.zero 1 wColors =
      Vec3.smul (1 / (wColors.length : ℚ)) (sumV wColors) :=
  ⟨by decide, finalGather_running_mean wColors (by decide)⟩

/-- `thrustStablePartition` returns exactly the kept elements in order,
followed by the rejected elements in order. -/
theorem thrustStablePartition_eq_filter {α : Type} (p : α → Bool) (l : List α) :
    thrustStablePartition p l = (l.filter p, l.filter fun a => !(p a)) := by
  induction l with
  | nil => rfl
  | cons a l ih =>
    simp only [thrustStablePartition, ih]
    cases hpa : p a <;> simp [List.filter, hpa]

/-- Claim C6: with compaction enabled, the pool is stably partitioned so that
all live paths (positive `remainingBounces`) precede all terminated ones with
relative order preserved inside both groups, `num_paths` becomes the live
count, and the terminated paths are carried over unmodified (in particular
their `color` fields are unchanged).  The bounce counters are nonnegative
because every path starts at the trace depth and is only ever decremented to,
or set to, zero. -/
theorem streamCompact_stable_partition (paths : List PathSegment)
    (hnn : ∀ x ∈ paths, 0 ≤ x.remainingBounces) :
    (streamCompact paths).1 =
        paths.filter (fun x => decide (0 < x.remainingBounces)) ++
          paths.filter (fun x => decide (¬ 0 < x.remainingBounces)) ∧
    (streamCompact paths).2 =
        (paths.filter (fun x => decide (0 < x.remainingBounces))).length := by
  have hpq : ∀ x ∈ paths, notEquals 0 x = decide (0 < x.remainingBounces) := by
    intro x hx
    have hx0 := hnn x hx
    unfold notEquals
    by_cases h : x.remainingBounces = 0
    · simp [h]
    · have hlt : 0 < x.remainingBounces := lt_of_le_of_ne hx0 (Ne.symm h)
      simp [h, hlt]
  have hpq' : ∀ x ∈ paths, (!(notEquals 0 x)) = decide (¬ 0 < x.remainingBounces) := by
    intro x hx
    rw [hpq x hx, decide_not]
  unfold streamCompact
  rw [thrustStablePartition_eq_filter]
  exact ⟨by rw [List.filter_congr hpq, List.filter_congr hpq'],
    by rw [List.filter_congr hpq]⟩

/-- Witness for C6 on a concrete pool of two live and one terminated path. -/
theorem streamCompact_stable_partition_witness :
    (∀ x ∈ wSegs, 0 ≤ x.remainingBounces) ∧
    ((streamCompact wSegs).1 =
        wSegs.filter (fun x => decide (0 < x.remainingBounces)) ++
          wSegs.filter (fun x => decide (¬ 0 < x.remainingBounces)) ∧
      (streamCompact wSegs).2 =
        (wSegs.filter (fun x => decide (0 < x.remainingBounces))).length) :=
  ⟨by decide, streamCompact_stable_partition wSegs (by decide)⟩

/-- Every suffix of the bounce loop that still has live budget ends its
shading-depth schedule exactly at `traceDepth`. -/
theorem pathtraceShadeDepthsFrom_concat (tD pc : ℕ) (hpc : 0 < pc) :
    ∀ n d, tD - d ≤ n → d < tD →
      ∃ l, pathtraceShadeDepthsFrom tD pc d = l ++ [tD] := by
  intro n
  induction n with
  | zero =>
    intro d h1 h2
    omega
  | succ n ih =>
    intro d h1 h2
    rw [pathtraceShadeDepthsFrom]
    by_cases hc : tD ≤ d + 1 ∨ pc = 0
    · rw [dif_pos hc]
      have htd : tD = d + 1 := by
        rcases hc with hc1 | hc2
        · omega
        · omega
      exact ⟨[], by rw [htd]; rfl⟩
    · rw [dif_neg hc]
      have hc' : ¬ tD ≤ d + 1 := fun hle => hc (Or.inl hle)
      obtain ⟨l, hl⟩ := ih (d + 1) (by omega) (by omega)
      exact ⟨(d + 1) :: l, by rw [hl, List.cons_append]⟩

/-- Claim C10: with a nonempty pixel pool the bounce loop increments `depth`
before launching the shading kernel, so the final shading launch receives
`depth = traceDepth`; consequently the engine it builds for a slot coincides —
state and whole sample stream — with the engine `generateRayFromCamera` built
for the same slot, which is seeded with `depth = traceDepth` as well. -/
theorem final_bounce_rng_matches_camera_rng (iter idx traceDepth pixelcount : ℕ)
    (h1 : 1 ≤ traceDepth) (h2 : 0 < pixelcount) :
    (pathtraceShadeDepths traceDepth pixelcount).getLast? = some traceDepth ∧
    ∀ d, (pathtraceShadeDepths traceDepth pixelcount).getLast? = some d →
      makeSeededRandomEngine iter idx d = makeSeededRandomEngine iter idx traceDepth ∧
      ∀ n, engineStream (makeSeededRandomEngine iter idx d) n =
        engineStream (makeSeededRandomEngine iter idx traceDepth) n := by
  obtain ⟨l, hl⟩ :=
    pathtraceShadeDepthsFrom_concat traceDepth pixelcount h2 traceDepth 0 (by omega) (by omega)
  have hlast : (pathtraceShadeDepths traceDepth pixelcount).getLast? = some traceDepth := by
    unfold pathtraceShadeDepths
    rw [hl, List.getLast?_concat]
  refine ⟨hlast, ?_⟩
  intro d hd
  rw [hlast] at hd
  obtain rfl := Option.some.inj hd
  exact ⟨rfl, fun _ => rfl⟩

/-- Witness for C10 at trace depth 8 over a 2x2 pixel pool. -/
theorem final_bounce_rng_matches_camera_rng_witness :
    (1 ≤ 8 ∧ 0 < 4) ∧
    ((pathtraceShadeDepths 8 4).getLast? = some 8 ∧
      ∀ d, (pathtraceShadeDepths 8 4).getLast? = some d →
        makeSeededRandomEngine 1 0 d = makeSeededRandomEngine 1 0 8 ∧
        ∀ n, engineStream (makeSeededRandomEngine 1 0 d) n =
          engineStream (makeSeededRandomEngine 1 0 8) n) :=
  ⟨⟨by omega, by omega⟩, final_bounce_rng_matches_camera_rng 1 0 8 4 (by omega) (by omega)⟩

/-- Claim C5: every path segment produced by camera-ray generation starts with
throughput (1,1,1), color (0,0,0), `remainingBounces` equal to the trace depth
and `pixelIndex = x + y * width`; its ray origin is the camera position in the
pinhole case (aperture radius 0) and a lens-sampled point
(`cameraToWorld(aperture * squareToDiskConcentric(u))`) when the aperture is
positive. -/
theorem generateRayFromCamera_initial_state
    (nrm : Vec3 → Vec3) (sqd : ℚ × ℚ → Vec3) (u01 : ℕ → ℚ × ℕ)
    (cam : Camera) (iter traceDepth x y : ℕ) :
    (generateRayFromCamera nrm sqd u01 cam iter traceDepth x y).accum_throughput = Vec3.one ∧
    (generateRayFromCamera nrm sqd u01 cam iter traceDepth x y).color = Vec3.zero ∧
    (generateRayFromCamera nrm sqd u01 cam iter traceDepth x y).remainingBounces =
      (traceDepth : ℤ) ∧
    (generateRayFromCamera nrm sqd u01 cam iter traceDepth x y).pixelIndex =
      x + y * cam.resolution.1 ∧
    (cam.apertureSize = 0 →
      (generateRayFromCamera nrm sqd u01 cam iter traceDepth x y).ray.origin = cam.position) ∧
    (0 < cam.apertureSize →
      ∃ u1 u2, (generateRayFromCamera nrm sqd u01 cam iter traceDepth x y).ray.origin =
        cameraToWorld (Vec3.smul cam.apertureSize (sqd (u1, u2))) cam) := by
  refine ⟨rfl, rfl, rfl, rfl, ?_, ?_⟩
  · intro h0
    simp only [generateRayFromCamera]
    rw [if_neg (by rw [h0]; exact lt_irrefl 0)]
  · intro hpos
    simp only [generateRayFromCamera]
    rw [if_pos hpos]
    exact ⟨_, _, rfl⟩

/-- Witness for C5 at a concrete pinhole camera and pixel (2, 3). -/
theorem generateRayFromCamera_initial_state_witness :
    wCamPinhole.apertureSize = 0 ∧
    (generateRayFromCamera wNormalize wSqDisk wU01 wCamPinhole 1 8 2 3).ray.origin =
      wCamPinhole.position :=
  ⟨rfl,
    (generateRayFromCamera_initial_state wNormalize wSqDisk wU01 wCamPinhole 1 8 2 3).2.2.2.2.1
      rfl⟩

/-- Claim C9: the display pass leaves the canonical linear image untouched and
writes only the pixel buffer; with HDR correction enabled every displayed
channel is Reinhard-mapped (`v / (v + 1)`), gamma-corrected (the
`glm::pow(·, 1/2.2)` map `gp`), scaled by 255, truncated, and clamped into
[0, 255] before the 8-bit write. -/
theorem sendImageToPBO_display_spec (gp : ℚ → ℚ) (image : List Vec3) :
    (∀ hdrGamma, (sendImageToPBO hdrGamma gp image).1 = image) ∧
    (∀ i, i < image.length →
      (sendImageToPBO true gp image).2.getD i default =
        { x := glm_clamp (intCast (gp (reinhard (image.getD i default).x) * 255)) 0 255
          y := glm_clamp (intCast (gp (reinhard (image.getD i default).y) * 255)) 0 255
          z := glm_clamp (intCast (gp (reinhard (image.getD i default).z) * 255)) 0 255
          w := 0 } ∧
      0 ≤ ((sendImageToPBO true gp image).2.getD i default).x ∧
      ((sendImageToPBO true gp image).2.getD i default).x ≤ 255 ∧
      0 ≤ ((sendImageToPBO true gp image).2.getD i default).y ∧
      ((sendImageToPBO true gp image).2.getD i default).y ≤ 255 ∧
      0 ≤ ((sendImageToPBO true gp image).2.getD i default).z ∧
      ((sendImageToPBO true gp image).2.getD i default).z ≤ 255) := by
  refine ⟨fun _ => rfl, ?_⟩
  intro i hi
  have hpix : (sendImageToPBO true gp image).2.getD i default =
      sendImageToPBOPixel true gp (image.getD i default) := by
    unfold sendImageToPBO
    rw [List.getD_eq_getElem?_getD, List.getD_eq_getElem?_getD,
      List.getElem?_map, List.getElem?_eq_getElem hi]
    rfl
  rw [hpix]
  refine ⟨rfl, ?_, ?_, ?_, ?_, ?_, ?_⟩ <;>
    simp only [sendImageToPBOPixel, glm_clamp, if_pos] <;> omega

/-- Witness for C9 on a one-pixel image with the identity gamma map. -/
theorem sendImageToPBO_display_spec_witness :
    (0 < wImage.length) ∧
    ((sendImageToPBO true (fun q => q) wImage).2.getD 0 default =
        { x := glm_clamp (intCast ((fun q => q) (reinhard (wImage.getD 0 default).x) * 255)) 0 255
          y := glm_clamp (intCast ((fun q => q) (reinhard (wImage.getD 0 default).y) * 255)) 0 255
          z := glm_clamp (intCast ((fun q => q) (reinhard (wImage.getD 0 default).z) * 255)) 0 255
          w := 0 } ∧
      0 ≤ ((sendImageToPBO true (fun q => q) wImage).2.getD 0 default).x ∧
      ((sendImageToPBO true (fun q => q) wImage).2.getD 0 default).x ≤ 255 ∧
      0 ≤ ((sendImageToPBO true (fun q => q) wImage).2.getD 0 default).y ∧
      ((sendImageToPBO true (fun q => q) wImage).2.getD 0 default).y ≤ 255 ∧
      0 ≤ ((sendImageToPBO true (fun q => q) wImage).2.getD 0 default).z ∧
      ((sendImageToPBO true (fun q => q) wImage).2.getD 0 default).z ≤ 255) :=
  ⟨by decide, (sendImageToPBO_display_spec (fun q => q) wImage).2 0 (by decide)⟩

/-- The geometry scan of `computeIntersections` maintains `isectInv`: at every
prefix the accumulator is untouched iff no positive `t` was seen, and
otherwise holds the smallest positive `t` with the lowest achieving index. -/
theorem isectFold_inv (res : ℕ → PrimHit) :
    ∀ n, (∀ j, j < n → (res j).t < fltMax) →
      isectInv res n ((List.range n).foldl (isectStep res) ⟨fltMax, -1, Vec3.zero⟩) := by
  intro n
  induction n with
  | zero =>
    intro _
    unfold isectInv
    left
    exact ⟨rfl, rfl, fun j hj => absurd hj (Nat.not_lt_zero j)⟩
  | succ n ih =>
    intro hbound
    have ihb := ih (fun j hj => hbound j (Nat.lt_succ_of_lt hj))
    rw [List.range_succ, List.foldl_append, List.foldl_cons, List.foldl_nil]
    unfold isectInv at ihb ⊢
    rcases ihb with ⟨h1, h2, h3⟩ | ⟨i, hi, hidx, htm, hnm, hpos, hmin, htie⟩
    · by_cases hn : 0 < (res n).t
      · have hcond : 0 < (res n).t ∧ (res n).t <
            ((List.range n).foldl (isectStep res) ⟨fltMax, -1, Vec3.zero⟩).t_min := by
          refine ⟨hn, ?_⟩
          rw [h2]
          exact hbound n (Nat.lt_succ_self n)
        simp only [isectStep]
        rw [if_pos hcond]
        right
        refine ⟨n, Nat.lt_succ_self n, rfl, rfl, rfl, hn, ?_, ?_⟩
        · intro j hj hjp
          rcases Nat.lt_succ_iff_lt_or_eq.mp hj with hj' | hj'
          · exact absurd hjp (h3 j hj')
          · subst hj'
            exact le_refl _
        · intro j hj hjp
          exact absurd hjp (h3 j hj)
      · simp only [isectStep]
        rw [if_neg (fun hcc => hn hcc.1)]
        left
        refine ⟨h1, h2, ?_⟩
        intro j hj
        rcases Nat.lt_succ_iff_lt_or_eq.mp hj with hj' | hj'
        · exact h3 j hj'
        · subst hj'
          exact hn
    · by_cases hc : 0 < (res n).t ∧ (res n).t <
          ((List.range n).foldl (isectStep res) ⟨fltMax, -1, Vec3.zero⟩).t_min
      · have h4 : (res n).t < (res i).t := by
          rw [← htm]
          exact hc.2
        simp only [isectStep]
        rw [if_pos hc]
        right
        refine ⟨n, Nat.lt_succ_self n, rfl, rfl, rfl, hc.1, ?_, ?_⟩
        · intro j hj hjp
          rcases Nat.lt_succ_iff_lt_or_eq.mp hj with hj' | hj'
          · exact le_trans (le_of_lt h4) (hmin j hj' hjp)
          · subst hj'
            exact le_refl _
        · intro j hj hjp
          exact lt_of_lt_of_le h4 (hmin j hj hjp)
      · simp only [isectStep]
        rw [if_neg hc]
        right
        refine ⟨i, Nat.lt_succ_of_lt hi, hidx, htm, hnm, hpos, ?_, htie⟩
        intro j hj hjp
        rcases Nat.lt_succ_iff_lt_or_eq.mp hj with hj' | hj'
        · exact hmin j hj' hjp
        · subst hj'
          have h5 := not_lt.mp (fun hlt => hc ⟨hjp, hlt⟩)
          rw [htm] at h5
          exact h5

/-- Claim C3: the scene-dispatch intersector returns the hit with the smallest
strictly positive `t` over all instances, breaking ties at equal `t` in favour
of the lower geometry index; on a hit it writes that hit's
`(t, surfaceNormal, materialId)` and on a total miss it writes `t = -1`.  The
hypothesis `hbound` states that every primitive test returns a float value,
hence one strictly below `FLT_MAX`. -/
theorem computeIntersections_nearest_hit
    (bt st mt : Geom → Ray → PrimHit) (geoms : List Geom) (ray : Ray)
    (hbound : ∀ j, j < geoms.length → (geomRes bt st mt geoms ray j).t < fltMax) :
    ((∀ j, j < geoms.length → ¬ 0 < (geomRes bt st mt geoms ray j).t) →
        (computeIntersections bt st mt geoms ray).t = -1) ∧
    ((∃ j, j < geoms.length ∧ 0 < (geomRes bt st mt geoms ray j).t) →
      ∃ k, k < geoms.length ∧ 0 < (geomRes bt st mt geoms ray k).t ∧
        (∀ j, j < geoms.length → 0 < (geomRes bt st mt geoms ray j).t →
          (geomRes bt st mt geoms ray k).t ≤ (geomRes bt st mt geoms ray j).t) ∧
        (∀ j, j < k → 0 < (geomRes bt st mt geoms ray j).t →
          (geomRes bt st mt geoms ray k).t < (geomRes bt st mt geoms ray j).t) ∧
        computeIntersections bt st mt geoms ray =
          { t := (geomRes bt st mt geoms ray k).t
            surfaceNormal := (geomRes bt st mt geoms ray k).normal
            materialId := (geoms.getD k default).materialid }) := by
  have hinv := isectFold_inv (geomRes bt st mt geoms ray) geoms.length hbound
  unfold isectInv at hinv
  constructor
  · intro hnone
    rcases hinv with ⟨h1, _, _⟩ | ⟨i, hi, _, _, _, hpos, _, _⟩
    · simp only [computeIntersections]
      rw [if_pos h1]
    · exact absurd hpos (hnone i hi)
  · rintro ⟨j0, hj0, hj0p⟩
    rcases hinv with ⟨_, _, h3⟩ | ⟨i, hi, hidx, htm, hnm, hpos, hmin, htie⟩
    · exact absurd hj0p (h3 j0 hj0)
    · refine ⟨i, hi, hpos, hmin, htie, ?_⟩
      have hne : ((List.range geoms.length).foldl (isectStep (geomRes bt st mt geoms ray))
          ⟨fltMax, -1, Vec3.zero⟩).hit_geom_index ≠ -1 := by
        rw [hidx]
        omega
      simp only [computeIntersections]
      rw [if_neg hne, htm, hnm, hidx]
      have htn : ((i : ℤ)).toNat = i := Int.toNat_natCast i
      rw [htn]

/-- Witness for C3 on a one-instance scene whose only primitive test misses:
the intersector writes `t = -1`. -/
theorem computeIntersections_nearest_hit_witness :
    (computeIntersections wBoxTest wSphereTest wMeshTest wGeomsMiss wRay).t = -1 :=
  (computeIntersections_nearest_hit wBoxTest wSphereTest wMeshTest wGeomsMiss wRay
      (by decide)).1 (by decide)
